import Mathlib

set_option maxRecDepth 8192

/-!
Verification of the identity-rotation engine of auto_macchanger.py.

The Python source is shallowly embedded: random draws (random.choice,
random.randint) become explicit parameters (an index pick and a byte
stream rnd, consumed as rnd k % 256 to model randint(0,255)); live-system
lookups (sysctl TTL, hostname, iwgetid SSID, ip link output) become
Option-valued parameters; Python exceptions escaping a function become an
Option result of the embedded function; side effects of the session object
(MAC-set commands, log lines) are recorded as traces in the session state.

String primitives used by the source (str.split(":"), ":".join, slicing,
lower(), substring tests, the %02x format) are implemented transparently
over character lists so that every definition evaluates by kernel
reduction.
-/

/-- Python truthiness of an optional string: None and the empty string are falsy. -/
def strTruthy : Option String → Bool
  | none => false
  | some s => !s.isEmpty

/-- Lowercase ASCII hex digit, as produced by the Python format spec 02x. -/
def hexChar (n : Nat) : Char :=
  if n < 10 then Char.ofNat (48 + n) else Char.ofNat (97 + n - 10)

/-- Model of the Python format expression f-string 02x for a byte value. -/
def toHex2 (b : Nat) : String :=
  String.mk [hexChar (b / 16 % 16), hexChar (b % 16)]

/-- Value of one hex digit character, both cases accepted as by Python int(s,16). -/
def parseHexDigit (c : Char) : Option Nat :=
  if 48 ≤ c.toNat ∧ c.toNat ≤ 57 then some (c.toNat - 48)
  else if 97 ≤ c.toNat ∧ c.toNat ≤ 102 then some (c.toNat - 97 + 10)
  else if 65 ≤ c.toNat ∧ c.toNat ≤ 70 then some (c.toNat - 65 + 10)
  else none

def parseHexList : List Char → Nat → Option Nat
  | [], acc => some acc
  | c :: cs, acc =>
    match parseHexDigit c with
    | none => none
    | some d => parseHexList cs (acc * 16 + d)

/-- Model of Python int(s, 16) on plain hex strings (no sign, 0x form or underscores,
which never occur in the data this program parses); none models ValueError. -/
def parseHexNat (s : String) : Option Nat :=
  if s.isEmpty then none else parseHexList s.toList 0

def splitColonCh (cur : List Char) : List Char → List String
  | [] => [String.mk cur.reverse]
  | c :: cs =>
    if c == ':' then String.mk cur.reverse :: splitColonCh [] cs
    else splitColonCh (c :: cur) cs

/-- Model of Python s.split(":"): splits on every colon, keeping empty pieces. -/
def strSplitColon (s : String) : List String :=
  splitColonCh [] s.toList

def joinColon : List String → List Char
  | [] => []
  | [p] => p.toList
  | p :: q :: ps => p.toList ++ ':' :: joinColon (q :: ps)

/-- Model of the Python join expression with separator colon. -/
def renderMac (parts : List String) : String :=
  String.mk (joinColon parts)

def lowerCh (c : Char) : Char :=
  if 65 ≤ c.toNat ∧ c.toNat ≤ 90 then Char.ofNat (c.toNat + 32) else c

/-- ASCII model of Python str.lower(); all strings this program lowercases are ASCII. -/
def strLower (s : String) : String :=
  String.mk (s.toList.map lowerCh)

/-- Model of Python slicing s[:n] (by characters). -/
def strTake (n : Nat) (s : String) : String :=
  String.mk (s.toList.take n)

/-- Model of Python s.startswith(p). -/
def strStartsWith (s p : String) : Bool :=
  p.toList.isPrefixOf s.toList

def containsChars (needle : List Char) : List Char → Bool
  | [] => needle.isEmpty
  | c :: t => needle.isPrefixOf (c :: t) || containsChars needle t

/-- Model of the Python membership test needle in hay on strings. -/
def strContains (hay needle : String) : Bool :=
  containsChars needle.toList hay.toList

-- ============================================================
-- Static catalogs (CONSTANTS / CONFIG section of the source)
-- ============================================================

def VENDOR_OUIS : List (String × List String) :=
  [("apple", ["f0:18:98", "3c:15:c2", "a4:5e:60"]),
   ("intel", ["3c:fd:fe", "98:4f:ee"]),
   ("samsung", ["bc:14:ef", "d8:55:a3"]),
   ("realtek", ["00:e0:4c", "52:54:00"]),
   ("raspberrypi", ["b8:27:eb", "dc:a6:32"]),
   ("vmware", ["00:50:56"]),
   ("virtualbox", ["08:00:27"])]

def INTERFACE_VENDOR_MAP : List (String × List String) :=
  [("wlan", ["apple", "samsung", "realtek", "raspberrypi"]),
   ("eth", ["intel", "realtek"]),
   ("vm", ["vmware", "virtualbox"])]

def HOSTNAME_PROFILES : List (String × List String) :=
  [("apple", ["MacBook-Pro", "MacBook-Air"]),
   ("intel", ["ThinkPad", "Dell-Laptop"]),
   ("samsung", ["Galaxy-S21"]),
   ("raspberrypi", ["raspberrypi"]),
   ("vmware", ["vmware-host"]),
   ("virtualbox", ["vbox"])]

def TTL_PROFILES : List (String × Int) :=
  [("apple", 64), ("intel", 64), ("samsung", 64), ("raspberrypi", 64),
   ("realtek", 64), ("vmware", 128), ("virtualbox", 128)]

-- ============================================================
-- NETWORK LOGIC
-- ============================================================

/-- Embeds iface_type: classify an interface name by its naming convention. -/
def iface_type (iface : String) : String :=
  if strStartsWith iface "wl" then "wlan"
  else if strStartsWith iface "eth" || strStartsWith iface "en" then "eth"
  else if strStartsWith iface "vm" then "vm"
  else "unknown"

/-- Embeds auto_vendor: random.choice over the plausible vendors of the
interface class; the random draw is the index pick taken modulo the list
length, and none models the IndexError random.choice raises on an empty list. -/
def auto_vendor (iface : String) (pick : Nat) : Option String :=
  let vs := (INTERFACE_VENDOR_MAP.lookup (iface_type iface)).getD []
  vs.get? (pick % vs.length)

/-- Python dict assignment profiles[k] = v on the JSON-backed store,
modelled on an association list: replace the binding if present, else append. -/
def storeSet (ps : List (String × String)) (k v : String) : List (String × String) :=
  if (ps.lookup k).isSome then
    ps.map (fun kv => if kv.1 = k then (k, v) else kv)
  else ps ++ [(k, v)]

/-- Embeds persistent_vendor: the SSID read (current_ssid) and the loaded
profile store (load_profiles) are parameters; the result pairs the returned
vendor with the store as saved back (save_profiles); none models the
IndexError propagating out of auto_vendor. -/
def persistent_vendor (iface : String) (ssid : Option String)
    (profiles : List (String × String)) (pick : Nat) :
    Option (String × List (String × String)) :=
  if strTruthy ssid ∧ (profiles.lookup (ssid.getD "")).isSome then
    some ((profiles.lookup (ssid.getD "")).getD "", profiles)
  else
    match auto_vendor iface pick with
    | none => none
    | some vendor =>
      if strTruthy ssid ∧ strTruthy (some vendor) then
        some (vendor, storeSet profiles (ssid.getD "") vendor)
      else some (vendor, profiles)

-- ============================================================
-- MAC GENERATION (random_mac)
-- ============================================================

/-- The while loop of random_mac padding the prefix pieces with random
octets until three are present; fuel 3 always suffices to reach length 3,
exactly as the source loop does. -/
def padTo3 (rnd : Nat → Nat) : Nat → List String → Nat → List String
  | 0, base, _ => base
  | fuel + 1, base, k =>
    if base.length < 3 then padTo3 rnd fuel (base ++ [toHex2 (rnd k % 256)]) (k + 1)
    else base

/-- The body of random_mac after the vendor branch has fixed the prefix:
build the first three octet groups from the prefix (or a locally
administered random first octet when no prefix is set) and append three
random octet groups. -/
def assembleMac (pfx : Option String) (rnd : Nat → Nat) : List String :=
  let first :=
    if strTruthy pfx then (padTo3 rnd 3 (strSplitColon (pfx.getD "")) 0).take 3
    else
      let b := ((rnd 0 % 256) &&& 0xfc) ||| 0x02
      [toHex2 b, toHex2 (rnd 1 % 256), toHex2 (rnd 2 % 256)]
  first ++ [toHex2 (rnd 3 % 256), toHex2 (rnd 4 % 256), toHex2 (rnd 5 % 256)]

/-- Embeds random_mac up to the final join: the list of six octet groups.
A truthy vendor overrides the prefix with a randomly chosen catalog OUI
(random.choice modelled by index pick modulo the list length); none models
the KeyError raised when the vendor is not in VENDOR_OUIS. -/
def random_mac_parts (vendor pfx : Option String) (pick : Nat) (rnd : Nat → Nat) :
    Option (List String) :=
  if strTruthy vendor then
    match VENDOR_OUIS.lookup (vendor.getD "") with
    | none => none
    | some ps => some (assembleMac (some (ps.getD (pick % ps.length) "")) rnd)
  else some (assembleMac pfx rnd)

/-- Embeds random_mac: the joined colon-separated MAC string. -/
def random_mac (vendor pfx : Option String) (pick : Nat) (rnd : Nat → Nat) :
    Option String :=
  (random_mac_parts vendor pfx pick rnd).map renderMac

-- ============================================================
-- Canonical MAC form (spec section 3, MacAddress validity)
-- ============================================================

def isHexLowerChar (c : Char) : Bool :=
  if (48 ≤ c.toNat ∧ c.toNat ≤ 57) ∨ (97 ≤ c.toNat ∧ c.toNat ≤ 102) then true else false

/-- A two-character lowercase hex octet group. -/
def isHex2 (p : String) : Bool :=
  match p.toList with
  | [a, b] => isHexLowerChar a && isHexLowerChar b
  | _ => false

/-- Exactly n colon-separated two-hex-digit lowercase groups. -/
def canonGroups : Nat → List Char → Bool
  | 1, [a, b] => isHexLowerChar a && isHexLowerChar b
  | n + 2, a :: b :: c :: rest =>
    isHexLowerChar a && isHexLowerChar b && (c == ':') && canonGroups (n + 1) rest
  | _, _ => false

/-- Canonical lowercase colon-separated six-octet MAC string. -/
def isCanonicalMac (s : String) : Bool :=
  canonGroups 6 s.toList

-- ============================================================
-- BELIEVABILITY SCORING (believability_score)
-- ============================================================

/-- Check 1 of believability_score: vendor matches interface type (20 points),
partial credit for unknown interface types, base credit for a well-formed
unicast first octet when no vendor is set. -/
def score_check1 (iface : String) (vendor : Option String) (mac : String) : Nat :=
  let it := iface_type iface
  if strTruthy vendor ∧ ((INTERFACE_VENDOR_MAP.lookup it).getD []).contains (vendor.getD "") then 20
  else if strTruthy vendor ∧ it = "unknown" then 8
  else if ¬strTruthy vendor then
    match parseHexNat ((strSplitColon mac).headD "") with
    | some b => if b &&& 1 = 0 then 10 else 0
    | none => 0
  else 0

/-- Check 2 of believability_score: the MAC prefix matches a declared vendor
OUI (20 points, 8 for a fuzzy match); for a vendor-less MAC, credit scaled by
the locally administered bit. -/
def score_check2 (vendor : Option String) (mac : String) : Nat :=
  if strTruthy vendor then
    let mp := strLower (strTake 8 mac)
    let vps := ((VENDOR_OUIS.lookup (vendor.getD "")).getD []).map strLower
    if vps.contains mp then 20
    else if vps.any (fun p => strStartsWith mp (strTake 5 p)) then 8
    else 0
  else
    match parseHexNat ((strSplitColon mac).headD "") with
    | some b => if b &&& 2 ≠ 0 then 15 else 8
    | none => 0

/-- Check 3 of believability_score: live default TTL against the vendor TTL
profile (15 points, 7 within one); common TTL values when no vendor is set.
The parameter is the result of the sysctl lookup, none when it fails. -/
def score_check3 (vendor : Option String) (ttl : Option Int) : Nat :=
  if strTruthy vendor then
    match ttl with
    | some t =>
      let expected := (TTL_PROFILES.lookup (vendor.getD "")).getD 64
      if t = expected then 15 else if (t - expected).natAbs ≤ 1 then 7 else 0
    | none => 0
  else
    match ttl with
    | some t =>
      if t = 64 ∨ t = 128 ∨ t = 255 then 12
      else if t = 32 ∨ t = 60 ∨ t = 63 ∨ t = 65 then 6
      else 0
    | none => 0

def genericPatterns : List String :=
  ["linux", "ubuntu", "debian", "user", "host", "pc", "laptop", "desktop"]

/-- Check 4 of believability_score: live hostname against the vendor hostname
profiles (15 points, 7 when it merely contains the vendor name); generic
hostname patterns when no vendor is set. The parameter is the result of the
hostname lookup, none when it fails. -/
def score_check4 (vendor : Option String) (hostname : Option String) : Nat :=
  if strTruthy vendor then
    match hostname with
    | some hn0 =>
      let hn := strLower hn0
      let ehs := ((HOSTNAME_PROFILES.lookup (vendor.getD "")).getD []).map strLower
      if ehs.any (fun h => strContains hn h) then 15
      else if strContains hn (strLower (vendor.getD "")) then 7
      else 0
    | none => 0
  else
    match hostname with
    | some hn0 =>
      let hn := strLower hn0
      if genericPatterns.any (fun p => strContains hn p) then 10 else 0
    | none => 0

/-- Check 5 of believability_score: persistent network identity: the stored
vendor of the current SSID against the vendor just applied (10 points, 4 for
a differing profile); absence of a profile is rewarded in vendor-less mode. -/
def score_check5 (vendor : Option String) (ssid : Option String)
    (profiles : List (String × String)) : Nat :=
  if strTruthy ssid ∧ (profiles.lookup (ssid.getD "")).isSome then
    let stored := (profiles.lookup (ssid.getD "")).getD ""
    if (match vendor with | some v => stored == v | none => false) then 10
    else if strTruthy vendor then 4
    else 0
  else if ¬strTruthy vendor then 8
  else 0

/-- The lazily evaluated generator all(int(parts[i],16) == int(parts[i-1],16)+1 ...)
of check 6: stops at the first non-consecutive pair without parsing further
parts; none models a ValueError escaping from int(_, 16). -/
def seqAll : List String → Option Bool
  | a :: b :: rest => do
    let y ← parseHexNat b
    let x ← parseHexNat a
    if y = x + 1 then seqAll (b :: rest) else pure false
  | _ => some true

/-- Check 6 of believability_score: MAC quality: no sequential, constant,
broadcast or null degenerate pattern (10 points, 4 when merely sequential
or constant). -/
def score_check6 (mac : String) : Nat :=
  if strTruthy (some mac) then
    let parts := strSplitColon mac
    match seqAll parts with
    | none => 0
    | some isSeq =>
      let isSame := parts.all (fun p => p == parts.headD "")
      let isBc := strLower mac == "ff:ff:ff:ff:ff:ff"
      let isNull := strLower mac == "00:00:00:00:00:00"
      if !(isSeq || isSame || isBc || isNull) then 10
      else if !(isBc || isNull) then 4
      else 0
  else 0

/-- Embeds believability_score: the sum of the seven checks, capped at 100.
Check 7 (IP acquisition) adds its 10 points unconditionally, as in the
source. The three live lookups (TTL, hostname, SSID) are Option parameters;
the loaded profile store is a parameter. -/
def believability_score (iface : String) (vendor : Option String) (mac : String)
    (ttl : Option Int) (hostname : Option String) (ssid : Option String)
    (profiles : List (String × String)) : Nat :=
  min (score_check1 iface vendor mac + score_check2 vendor mac + score_check3 vendor ttl
    + score_check4 vendor hostname + score_check5 vendor ssid profiles
    + score_check6 mac + 10) 100


-- ============================================================
-- CORE CLASS (MACIdentityChanger) and ROTATION DRIVER (main)
-- ============================================================

/-- Embeds the MACIdentityChanger session object. The MAC-set side effects
(calls to set_mac, which issue the down/address/up commands) and the log
lines are recorded as traces; original is the MAC captured by current_mac()
in the constructor, none when the ip link output held no link/ether field. -/
structure MACIdentityChanger where
  iface : String
  tool : String
  dry : Bool
  log_file : Option String
  original : Option String
  restored : Bool
  setTrace : List String
  logTrace : List String
  deriving Repr, DecidableEq

/-- Embeds MACIdentityChanger.__init__: the original MAC is captured from the
live interface (parameter curMac) before any mutation, the restored flag
starts false, and no side effect has happened yet. -/
def MACIdentityChanger.init (iface tool : String) (dry : Bool)
    (logf : Option String) (curMac : Option String) : MACIdentityChanger :=
  { iface := iface, tool := tool, dry := dry, log_file := logf,
    original := curMac, restored := false, setTrace := [], logTrace := [] }

/-- Embeds MACIdentityChanger.log (stdout and optional file append). -/
def MACIdentityChanger.logMsg (s : MACIdentityChanger) (m : String) : MACIdentityChanger :=
  { s with logTrace := s.logTrace ++ [m] }

/-- Embeds MACIdentityChanger.set_mac: one underlying MAC-set side effect,
recorded in the trace. -/
def MACIdentityChanger.set_mac (s : MACIdentityChanger) (mac : String) : MACIdentityChanger :=
  { s with setTrace := s.setTrace ++ [mac] }

/-- Embeds MACIdentityChanger.restore: guarded by the one-shot restored flag
and the truthiness of the captured original MAC. -/
def MACIdentityChanger.restore (s : MACIdentityChanger) : MACIdentityChanger :=
  if !s.restored && strTruthy s.original then
    let s1 := s.logMsg ("Restoring MAC -> " ++ s.original.getD "")
    let s2 := s1.set_mac (s.original.getD "")
    { s2 with restored := true }
  else s

/-- Iterated restore calls, for the idempotence claim. -/
def restoreN : Nat → MACIdentityChanger → MACIdentityChanger
  | 0, s => s
  | n + 1, s => restoreN n s.restore

/-- The operations the program ever performs on a live session. -/
inductive SessionOp where
  | doSet : String → SessionOp
  | doRestore : SessionOp
  | doLog : String → SessionOp

def applyOp (s : MACIdentityChanger) : SessionOp → MACIdentityChanger
  | .doSet m => s.set_mac m
  | .doRestore => s.restore
  | .doLog m => s.logMsg m

def applyOps (s : MACIdentityChanger) (ops : List SessionOp) : MACIdentityChanger :=
  ops.foldl applyOp s

/-- Embeds the while loop of main: on each pass i is incremented, the loop
breaks when a finite count is exceeded, otherwise the generated MAC is
logged and applied and the IP and score are logged. The MAC generated on
pass i is macs i; fuel makes the recursion structural, none meaning the
fuel ran out before the loop broke. -/
def rotLoop (macs : Nat → String) (count : Nat) :
    Nat → Nat → MACIdentityChanger → Option MACIdentityChanger
  | 0, _, _ => none
  | fuel + 1, i, s =>
    let j := i + 1
    if count ≠ 0 ∧ j > count then some s
    else
      let s1 := ((s.logMsg ("MAC -> " ++ macs j)).set_mac (macs j)).logMsg "IP and score"
      rotLoop macs count fuel j s1

/-- Embeds safe_exit for a live session: restore only when the caller opted
into restore on exit. -/
def safe_exit (restoreOnExit : Bool) (s : MACIdentityChanger) : MACIdentityChanger :=
  if restoreOnExit then s.restore else s

/-- Embeds the rotation driver of main: run the loop from i = 0, then the
finally block runs safe_exit. -/
def runRotation (macs : Nat → String) (count fuel : Nat) (restoreOnExit : Bool)
    (s : MACIdentityChanger) : Option MACIdentityChanger :=
  (rotLoop macs count fuel 0 s).map (safe_exit restoreOnExit)

/-- A concrete session used by the evaluation witnesses. -/
def sampleSession : MACIdentityChanger :=
  MACIdentityChanger.init "wlan0" "ip" false none (some "aa:bb:cc:dd:ee:ff")

-- ============================================================
-- Helper lemmas
-- ============================================================

theorem parseHex_toHex2 : ∀ b < 256, parseHexNat (toHex2 b) = some b := by decide

theorem isHex2_toHex2 : ∀ b < 256, isHex2 (toHex2 b) = true := by decide

theorem isHex2_toHex2_mod (x : Nat) : isHex2 (toHex2 (x % 256)) = true :=
  isHex2_toHex2 (x % 256) (Nat.mod_lt x (by norm_num))

theorem localAdmin_bits :
    ∀ x < 256, (((x &&& 252) ||| 2) &&& 3 = 2) ∧ ((x &&& 252) ||| 2) < 256 := by decide

/-- Every OUI list of the vendor catalog is nonempty, and each listed OUI is a
nonempty string of exactly three canonical lowercase two-hex-digit groups. -/
theorem vendor_ouis_wf : ∀ pr ∈ VENDOR_OUIS, pr.2 ≠ [] ∧
    ∀ p ∈ pr.2, ¬p.isEmpty ∧ (strSplitColon p).length = 3 ∧
      (strSplitColon p).all isHex2 = true := by decide

theorem lookup_mem_snd {β : Type} :
    ∀ (l : List (String × β)) (k : String) (v : β),
      l.lookup k = some v → v ∈ l.map Prod.snd := by
  intro l
  induction l with
  | nil => intro k v h; simp [List.lookup] at h
  | cons kv t ih =>
    intro k v h
    rw [List.lookup] at h
    by_cases he : k == kv.1
    · simp [he] at h
      simp [h]
    · simp [he] at h
      simp [ih kv.1 v, ih k v h]

theorem splitColonCh_ne_nil : ∀ (l : List Char) (cur : List Char), splitColonCh cur l ≠ [] := by
  intro l
  induction l with
  | nil => intro cur; simp [splitColonCh]
  | cons c t ih =>
    intro cur
    rw [splitColonCh]
    by_cases hc : c == ':'
    · simp [hc]
    · simp [hc, ih]

theorem strSplitColon_ne_nil (s : String) : strSplitColon s ≠ [] :=
  splitColonCh_ne_nil s.toList []

theorem getD_mod_mem (l : List String) (h : l ≠ []) (n : Nat) :
    l.getD (n % l.length) "" ∈ l := by
  have hlt : n % l.length < l.length := Nat.mod_lt n (List.length_pos.mpr h)
  rw [List.getD_eq_getElem l "" hlt]
  exact l.getElem_mem hlt

/-- Joining two-hex-digit groups with colons yields exactly the canonical
character pattern counted by the number of groups. -/
theorem canon_join : ∀ parts : List String, parts ≠ [] →
    (∀ p ∈ parts, isHex2 p = true) →
    canonGroups parts.length (joinColon parts) = true := by
  intro parts
  induction parts with
  | nil => intro hne _; exact absurd rfl hne
  | cons p tail ih =>
    intro _ hall
    have hp : isHex2 p = true := hall p (by simp)
    rcases hchars : p.toList with _ | ⟨a, _ | ⟨b, _ | ⟨c, t⟩⟩⟩ <;>
      rw [isHex2, hchars] at hp <;> simp at hp
    cases tail with
    | nil =>
      have h1 : ([p] : List String).length = 1 := by norm_num
      rw [h1]
      simp only [joinColon, hchars, canonGroups]
      simp [hp.1, hp.2]
    | cons q rest =>
      have h2 : (p :: q :: rest).length = rest.length + 2 := by
        rw [List.length_cons, List.length_cons]
      rw [h2]
      simp only [joinColon, hchars]
      rw [List.cons_append, List.cons_append, List.nil_append]
      rw [canonGroups]
      have hq : (q :: rest).length = rest.length + 1 := by rw [List.length_cons]
      have hrec : canonGroups (rest.length + 1) (joinColon (q :: rest)) = true := by
        rw [← hq]
        refine ih (by simp) ?_
        intro x hx
        exact hall x (List.mem_cons_of_mem p hx)
      simp [hp.1, hp.2, hrec]

theorem padTo3_stop (rnd : Nat → Nat) (fuel k : Nat) (base : List String)
    (h : ¬base.length < 3) : padTo3 rnd fuel base k = base := by
  cases fuel with
  | zero => rfl
  | succ f => rw [padTo3, if_neg h]

theorem padTo3_extends (rnd : Nat → Nat) :
    ∀ (fuel : Nat) (base : List String) (k : Nat),
      ∃ tail, padTo3 rnd fuel base k = base ++ tail := by
  intro fuel
  induction fuel with
  | zero => intro base k; exact ⟨[], by simp [padTo3]⟩
  | succ f ih =>
    intro base k
    rw [padTo3]
    by_cases h : base.length < 3
    · rw [if_pos h]
      obtain ⟨t, ht⟩ := ih (base ++ [toHex2 (rnd k % 256)]) (k + 1)
      exact ⟨toHex2 (rnd k % 256) :: t, by simp [ht]⟩
    · rw [if_neg h]; exact ⟨[], by simp⟩

theorem padTo3_len_all (rnd : Nat → Nat) (k : Nat) (base : List String)
    (h3 : base.length ≤ 3) (hall : base.all isHex2 = true) :
    (padTo3 rnd 3 base k).length = 3 ∧ (padTo3 rnd 3 base k).all isHex2 = true := by
  rcases base with _ | ⟨a, _ | ⟨b, _ | ⟨c, rest⟩⟩⟩
  · simp [padTo3, isHex2_toHex2_mod]
  · simp [padTo3, isHex2_toHex2_mod]
    simpa using hall
  · simp [padTo3, isHex2_toHex2_mod]
    simpa using hall
  · have hr : rest = [] := by
      rw [List.length_cons, List.length_cons, List.length_cons] at h3
      exact List.eq_nil_of_length_eq_zero (by omega)
    subst hr
    rw [padTo3_stop rnd 3 k _ (by simp)]
    exact ⟨by simp, hall⟩

/-- The six octet groups built by random_mac are all two-hex-digit groups
whenever a truthy prefix (if any survives the vendor branch) splits into at
most three such groups. -/
theorem assembleMac_hex (pfx : Option String) (rnd : Nat → Nat)
    (hp : ∀ p, pfx = some p → ¬p.isEmpty →
      (strSplitColon p).length ≤ 3 ∧ (strSplitColon p).all isHex2 = true) :
    (assembleMac pfx rnd).length = 6 ∧ (assembleMac pfx rnd).all isHex2 = true := by
  rw [assembleMac]
  by_cases ht : strTruthy pfx = true
  · rcases pfx with _ | p
    · simp [strTruthy] at ht
    · have hpe : ¬p.isEmpty := by
        simp [strTruthy] at ht
        simp [ht]
      obtain ⟨hlen, hall⟩ := hp p rfl hpe
      obtain ⟨hplen, hpall⟩ := padTo3_len_all rnd 0 (strSplitColon p) hlen hall
      rw [if_pos ht]
      simp only [Option.getD_some]
      rw [List.take_of_length_le (le_of_eq hplen)]
      constructor
      · simp [hplen]
      · rw [List.all_append]
        simp [hpall, isHex2_toHex2_mod]
  · rw [if_neg ht]
    have hb : isHex2 (toHex2 (((rnd 0 % 256) &&& 252) ||| 2)) = true := by
      have h := localAdmin_bits (rnd 0 % 256) (Nat.mod_lt _ (by norm_num))
      exact isHex2_toHex2 _ h.2
    simp [isHex2_toHex2_mod, hb]

theorem lookup_map_replace (k v : String) :
    ∀ t : List (String × String), (t.lookup k).isSome = true →
      (t.map (fun kv => if kv.1 = k then (k, v) else kv)).lookup k = some v := by
  intro t
  induction t with
  | nil => intro h; simp [List.lookup] at h
  | cons kv rest ih =>
    obtain ⟨k1, v1⟩ := kv
    intro h
    simp only [List.map_cons]
    by_cases he : k1 = k
    · subst he
      rw [if_pos rfl, List.lookup]
      have hkk : (k1 == k1) = true := beq_self_eq_true k1
      rw [hkk]
    · rw [if_neg he]
      have hne : (k == k1) = false := by
        cases hb : (k == k1) with
        | false => rfl
        | true => exact absurd (beq_iff_eq.mp hb).symm he
      rw [List.lookup, hne] at h
      rw [List.lookup, hne]
      exact ih h

theorem lookup_append_single (k v : String) :
    ∀ t : List (String × String), t.lookup k = none →
      (t ++ [(k, v)]).lookup k = some v := by
  intro t
  induction t with
  | nil =>
    intro _
    rw [List.nil_append, List.lookup]
    have hkk : (k == k) = true := beq_self_eq_true k
    rw [hkk]
  | cons kv rest ih =>
    obtain ⟨k1, v1⟩ := kv
    intro h
    have hne : (k == k1) = false := by
      cases hb : (k == k1) with
      | false => rfl
      | true => rw [List.lookup, hb] at h; simp at h
    rw [List.lookup, hne] at h
    rw [List.cons_append, List.lookup, hne]
    exact ih h

theorem lookup_storeSet (ps : List (String × String)) (k v : String) :
    (storeSet ps k v).lookup k = some v := by
  rw [storeSet]
  by_cases h : (ps.lookup k).isSome
  · rw [if_pos h]
    exact lookup_map_replace k v ps h
  · rw [if_neg h]
    exact lookup_append_single k v ps (Option.not_isSome_iff_eq_none.mp h)

theorem restore_of_restored (s : MACIdentityChanger) (h : s.restored = true) :
    s.restore = s := by
  rw [MACIdentityChanger.restore, h]
  simp

theorem restoreN_of_restored : ∀ (n : Nat) (s : MACIdentityChanger),
    s.restored = true → restoreN n s = s := by
  intro n
  induction n with
  | zero => intro s _; rfl
  | succ m ih =>
    intro s h
    rw [restoreN, restore_of_restored s h]
    exact ih s h

theorem restore_fires (s : MACIdentityChanger) (h0 : s.restored = false)
    (h1 : strTruthy s.original = true) :
    s.restore =
      { s with
        restored := true,
        setTrace := s.setTrace ++ [s.original.getD ""],
        logTrace := s.logTrace ++ ["Restoring MAC -> " ++ s.original.getD ""] } := by
  rw [MACIdentityChanger.restore, h0, h1]
  simp [MACIdentityChanger.logMsg, MACIdentityChanger.set_mac]

theorem applyOp_original (s : MACIdentityChanger) (op : SessionOp) :
    (applyOp s op).original = s.original := by
  cases op with
  | doSet m => rfl
  | doLog m => rfl
  | doRestore =>
    show (s.restore).original = s.original
    rw [MACIdentityChanger.restore]
    split
    · rfl
    · rfl

theorem applyOp_restored_mono (s : MACIdentityChanger) (op : SessionOp) :
    s.restored ≤ (applyOp s op).restored := by
  cases op with
  | doSet m => exact le_refl _
  | doLog m => exact le_refl _
  | doRestore =>
    show s.restored ≤ (s.restore).restored
    rw [MACIdentityChanger.restore]
    split
    · exact Bool.le_true _
    · exact le_refl _

theorem applyOps_original : ∀ (ops : List SessionOp) (s : MACIdentityChanger),
    (applyOps s ops).original = s.original := by
  intro ops
  induction ops with
  | nil => intro s; rfl
  | cons op rest ih =>
    intro s
    show (applyOps (applyOp s op) rest).original = s.original
    rw [ih (applyOp s op)]
    exact applyOp_original s op

theorem applyOps_restored_mono : ∀ (ops : List SessionOp) (s : MACIdentityChanger),
    s.restored ≤ (applyOps s ops).restored := by
  intro ops
  induction ops with
  | nil => intro s; exact le_refl _
  | cons op rest ih =>
    intro s
    exact le_trans (applyOp_restored_mono s op) (ih (applyOp s op))

theorem restore_setTrace (s : MACIdentityChanger) :
    (s.restore).setTrace = s.setTrace ∨
    (s.restore).setTrace = s.setTrace ++ [s.original.getD ""] := by
  rw [MACIdentityChanger.restore]
  split
  · right; rfl
  · left; rfl

/-- Claim C1: restore is idempotent. After a first call on an unrestored
session with a captured (truthy) original MAC, any number of further restore
calls leaves the session unchanged, so exactly one MAC-set side effect (the
original MAC) occurs across all the calls; and restore is a complete no-op
when no original MAC was captured. -/
theorem restore_idempotent_c1 (s : MACIdentityChanger) (n : Nat) :
    (s.restored = false → strTruthy s.original = true →
      restoreN n s.restore = s.restore ∧
      (restoreN n s.restore).setTrace = s.setTrace ++ [s.original.getD ""]) ∧
    (s.original = none → s.restore = s) := by
  constructor
  · intro h0 h1
    have hr : (s.restore).restored = true := by
      rw [restore_fires s h0 h1]
    have hfix : restoreN n s.restore = s.restore := restoreN_of_restored n _ hr
    refine ⟨hfix, ?_⟩
    rw [hfix, restore_fires s h0 h1]
  · intro h
    rw [MACIdentityChanger.restore, h]
    simp [strTruthy]

/-- Evaluation of the C1 idempotence theorem on a concrete session. -/
theorem restore_idempotent_c1_witness :
    sampleSession.restored = false ∧ strTruthy sampleSession.original = true ∧
    restoreN 5 sampleSession.restore = sampleSession.restore ∧
    (restoreN 5 sampleSession.restore).setTrace =
      sampleSession.setTrace ++ [sampleSession.original.getD ""] :=
  ⟨rfl, by decide, ((restore_idempotent_c1 sampleSession 5).1 rfl (by decide)).1,
    ((restore_idempotent_c1 sampleSession 5).1 rfl (by decide)).2⟩

/-- Claim C2: the original MAC is captured exactly once at construction,
before any MAC mutation (the set trace starts empty), is never overwritten
by any sequence of set_mac, restore or log operations, the restored flag
never falls back from true to false, and the only value a restore call can
ever pass to the MAC-set operation is the session's original MAC. -/
theorem original_capture_invariant_c2 (iface tool : String) (dry : Bool)
    (logf curMac : Option String) (ops : List SessionOp) (s : MACIdentityChanger) :
    (MACIdentityChanger.init iface tool dry logf curMac).original = curMac ∧
    (MACIdentityChanger.init iface tool dry logf curMac).setTrace = [] ∧
    (applyOps s ops).original = s.original ∧
    s.restored ≤ (applyOps s ops).restored ∧
    ((s.restore).setTrace = s.setTrace ∨
      (s.restore).setTrace = s.setTrace ++ [s.original.getD ""]) :=
  ⟨rfl, rfl, applyOps_original ops s, applyOps_restored_mono ops s, restore_setTrace s⟩

theorem rotLoop_step (macs : Nat → String) (count fuel i : Nat) (s : MACIdentityChanger) :
    rotLoop macs count (fuel + 1) i s =
      if count ≠ 0 ∧ i + 1 > count then some s
      else rotLoop macs count fuel (i + 1)
        (((s.logMsg ("MAC -> " ++ macs (i + 1))).set_mac (macs (i + 1))).logMsg
          "IP and score") := rfl

/-- Claim C3: with count three and enough fuel, the rotation loop applies
exactly the three generated MACs in order and terminates, and the final
safe_exit (restore on exit enabled, original captured) appends exactly one
further MAC-set of the original and flips the restored flag. -/
theorem rotation_count3_c3 (macs : Nat → String) (s : MACIdentityChanger) (k : Nat)
    (h0 : s.setTrace = []) (h1 : s.restored = false) (h2 : strTruthy s.original = true) :
    ∃ s3 : MACIdentityChanger,
      runRotation macs 3 (k + 4) true s = some s3 ∧
      s3.setTrace = [macs 1, macs 2, macs 3, s.original.getD ""] ∧
      s3.restored = true := by
  have hloop : ∃ sl : MACIdentityChanger, rotLoop macs 3 (k + 4) 0 s = some sl ∧
      sl.setTrace = [macs 1, macs 2, macs 3] ∧ sl.restored = false ∧
      sl.original = s.original := by
    rw [show k + 4 = (((k + 1) + 1) + 1) + 1 from rfl]
    rw [rotLoop_step, if_neg (by norm_num)]
    rw [rotLoop_step, if_neg (by norm_num)]
    rw [rotLoop_step, if_neg (by norm_num)]
    rw [rotLoop_step, if_pos (by norm_num)]
    refine ⟨_, rfl, ?_, ?_, ?_⟩ <;>
      simp [MACIdentityChanger.set_mac, MACIdentityChanger.logMsg, h0, h1]
  obtain ⟨sl, hsl, htr, hre, hor⟩ := hloop
  have hfire := restore_fires sl hre (by rw [hor]; exact h2)
  refine ⟨sl.restore, ?_, ?_, ?_⟩
  · rw [runRotation, hsl]
    rfl
  · rw [hfire]
    simp [htr, hor]
  · rw [hfire]

/-- Evaluation of the C3 rotation theorem on a concrete session. -/
theorem rotation_count3_c3_witness :
    sampleSession.setTrace = [] ∧ sampleSession.restored = false ∧
    strTruthy sampleSession.original = true ∧
    (∃ s3 : MACIdentityChanger,
      runRotation (fun _ => "02:11:22:33:44:55") 3 4 true sampleSession = some s3 ∧
      s3.setTrace = ["02:11:22:33:44:55", "02:11:22:33:44:55", "02:11:22:33:44:55",
        sampleSession.original.getD ""] ∧
      s3.restored = true) :=
  ⟨rfl, rfl, by decide,
    rotation_count3_c3 (fun _ => "02:11:22:33:44:55") sampleSession 0 rfl rfl (by decide)⟩

/-- Claim C9: resolveVendor is consistent per SSID. Once a first call on a
nonempty SSID has returned a (nonempty) vendor and the saved store, a second
call on the same SSID against that store returns the same vendor and leaves
the store unchanged, for every random draw of the second call (cache hit,
no re-roll). -/
theorem persistent_vendor_consistent_c9 (iface s0 : String)
    (profiles profiles2 : List (String × String)) (pick1 : Nat) (v : String)
    (hs : ¬s0.isEmpty) (hv : ¬v.isEmpty)
    (h1 : persistent_vendor iface (some s0) profiles pick1 = some (v, profiles2)) :
    ∀ pick2 : Nat, persistent_vendor iface (some s0) profiles2 pick2 = some (v, profiles2) := by
  intro pick2
  have hie : s0.isEmpty = false := by
    cases hb : s0.isEmpty with
    | false => rfl
    | true => exact absurd hb hs
  have hts : strTruthy (some s0) = true := by simp [strTruthy, hie]
  have hgd : (some s0).getD "" = s0 := rfl
  rw [persistent_vendor] at h1
  by_cases hc : strTruthy (some s0) ∧ ((profiles.lookup ((some s0).getD "")).isSome = true)
  · rw [if_pos hc] at h1
    obtain ⟨w, hw⟩ := Option.isSome_iff_exists.mp hc.2
    rw [hgd] at hw
    have h1' := Option.some.inj h1
    have hveq : (profiles.lookup s0).getD "" = v := congrArg Prod.fst h1'
    have hpeq : profiles = profiles2 := congrArg Prod.snd h1'
    rw [hw] at hveq
    simp only [Option.getD_some] at hveq
    rw [persistent_vendor, if_pos ?side]
    case side =>
      refine ⟨hts, ?_⟩
      rw [hgd, ← hpeq, hw]
      rfl
    rw [hgd, ← hpeq, hw]
    simp [hveq]
  · rw [if_neg hc] at h1
    cases ha : auto_vendor iface pick1 with
    | none => rw [ha] at h1; simp at h1
    | some w =>
      simp only [ha] at h1
      by_cases hw : strTruthy (some s0) ∧ (strTruthy (some w) = true)
      · rw [if_pos hw] at h1
        have h1' := Option.some.inj h1
        have hveq : w = v := congrArg Prod.fst h1'
        have hpeq : storeSet profiles ((some s0).getD "") w = profiles2 :=
          congrArg Prod.snd h1'
        rw [hgd] at hpeq
        have hlk : profiles2.lookup s0 = some v := by
          rw [← hpeq, hveq]
          exact lookup_storeSet profiles s0 v
        rw [persistent_vendor, if_pos ?side2]
        case side2 =>
          refine ⟨hts, ?_⟩
          rw [hgd, hlk]
          rfl
        rw [hgd, hlk]
        simp
      · rw [if_neg hw] at h1
        have h1' := Option.some.inj h1
        have hveq : w = v := congrArg Prod.fst h1'
        have hwt : strTruthy (some w) = true := by
          subst hveq
          cases hb : w.isEmpty with
          | false => simp [strTruthy, hb]
          | true => exact absurd hb hv
        exact absurd ⟨hts, hwt⟩ hw

/-- Evaluation of the C9 consistency theorem on a concrete first call. -/
theorem persistent_vendor_consistent_c9_witness :
    ¬("HomeNet".isEmpty = true) ∧ ¬("apple".isEmpty = true) ∧
    persistent_vendor "wlan0" (some "HomeNet") [] 0 =
      some ("apple", [("HomeNet", "apple")]) ∧
    persistent_vendor "wlan0" (some "HomeNet") [("HomeNet", "apple")] 7 =
      some ("apple", [("HomeNet", "apple")]) :=
  ⟨by decide, by decide, by decide,
    persistent_vendor_consistent_c9 "wlan0" "HomeNet" [] [("HomeNet", "apple")] 0 "apple"
      (by decide) (by decide) (by decide) 7⟩

/-- Claim C4: the believability score is an integer between 0 and 100 for
every interface, vendor, MAC and every outcome (including failure) of the
three live lookups it performs; a failed TTL or hostname lookup contributes
zero points to its check, and a failed SSID lookup contributes zero when a
vendor is set. -/
theorem score_bounds_c4 (iface : String) (vendor : Option String) (mac : String)
    (ttl : Option Int) (hostname ssid : Option String)
    (profiles : List (String × String)) :
    believability_score iface vendor mac ttl hostname ssid profiles ≤ 100 ∧
    0 ≤ believability_score iface vendor mac ttl hostname ssid profiles ∧
    score_check3 vendor none = 0 ∧
    score_check4 vendor none = 0 ∧
    (strTruthy vendor = true → score_check5 vendor none profiles = 0) := by
  refine ⟨Nat.min_le_right _ _, Nat.zero_le _, ?_, ?_, ?_⟩
  · cases h : strTruthy vendor <;> simp [score_check3, h]
  · cases h : strTruthy vendor <;> simp [score_check4, h]
  · intro hv
    rw [score_check5, if_neg (by simp [strTruthy]), if_neg (by simp [hv])]

/-- Evaluation of the C4 bounds theorem on a concrete scoring call with all
live lookups failed. -/
theorem score_bounds_c4_witness :
    strTruthy (some "apple") = true ∧
    score_check5 (some "apple") none [] = 0 ∧
    believability_score "wlan0" (some "apple") "f0:18:98:00:00:00" none none none [] ≤ 100 :=
  ⟨by decide,
    (score_bounds_c4 "wlan0" (some "apple") "f0:18:98:00:00:00" none none none []).2.2.2.2
      (by decide),
    (score_bounds_c4 "wlan0" (some "apple") "f0:18:98:00:00:00" none none none []).1⟩

/-- Claim C10: the believability score is always at least 10, because check 7
(IP acquisition) adds its 10 points unconditionally. -/
theorem score_lower_bound_c10 (iface : String) (vendor : Option String) (mac : String)
    (ttl : Option Int) (hostname ssid : Option String)
    (profiles : List (String × String)) :
    10 ≤ believability_score iface vendor mac ttl hostname ssid profiles := by
  rw [believability_score]
  refine le_min_iff.mpr ⟨Nat.le_add_left 10 _, by norm_num⟩

theorem isEmpty_false_of_not (p : String) (h : ¬p.isEmpty = true) : p.isEmpty = false := by
  cases hb : p.isEmpty with
  | false => rfl
  | true => exact absurd hb h

/-- Claim C5: under a vendor policy whose vendor is in the catalog, the
generated MAC's first three octet groups are exactly the groups of one of
that vendor's listed OUI prefixes, for every random outcome. -/
theorem vendor_oui_c5 (v : String) (ps : List String) (pfx : Option String)
    (pick : Nat) (rnd : Nat → Nat)
    (h : VENDOR_OUIS.lookup v = some ps) :
    ∃ p, p ∈ ps ∧ ∃ parts, random_mac_parts (some v) pfx pick rnd = some parts ∧
      parts.take 3 = strSplitColon p ∧
      random_mac (some v) pfx pick rnd = some (renderMac parts) := by
  have hv : v ≠ "" := by
    intro e
    subst e
    rw [(by decide : VENDOR_OUIS.lookup "" = (none : Option (List String)))] at h
    cases h
  have hvie : v.isEmpty = false := by
    cases hb : v.isEmpty with
    | false => rfl
    | true => exact absurd ((String.isEmpty_iff v).mp hb) hv
  have ht : strTruthy (some v) = true := by simp [strTruthy, hvie]
  have hmem := lookup_mem_snd VENDOR_OUIS v ps h
  obtain ⟨pr, hpr, hsnd⟩ := List.mem_map.mp hmem
  obtain ⟨hne, hwf⟩ := vendor_ouis_wf pr hpr
  rw [hsnd] at hne hwf
  have hp0mem : ps.getD (pick % ps.length) "" ∈ ps := getD_mod_mem ps hne pick
  obtain ⟨hp0ne, hp0len, hp0all⟩ := hwf _ hp0mem
  refine ⟨ps.getD (pick % ps.length) "", hp0mem, ?_⟩
  have hparts : random_mac_parts (some v) pfx pick rnd =
      some (assembleMac (some (ps.getD (pick % ps.length) "")) rnd) := by
    rw [random_mac_parts, if_pos ht, show (some v).getD "" = v from rfl, h]
  have htp : strTruthy (some (ps.getD (pick % ps.length) "")) = true := by
    show (!(ps.getD (pick % ps.length) "").isEmpty) = true
    rw [isEmpty_false_of_not _ hp0ne]
    rfl
  have hassem : assembleMac (some (ps.getD (pick % ps.length) "")) rnd =
      strSplitColon (ps.getD (pick % ps.length) "") ++
        [toHex2 (rnd 3 % 256), toHex2 (rnd 4 % 256), toHex2 (rnd 5 % 256)] := by
    rw [assembleMac, if_pos htp]
    rw [show (some (ps.getD (pick % ps.length) "")).getD "" = ps.getD (pick % ps.length) ""
      from rfl]
    rw [padTo3_stop rnd 3 0 _ (by rw [hp0len]; omega)]
    rw [List.take_of_length_le (le_of_eq hp0len)]
  refine ⟨_, hparts, ?_, by rw [random_mac, hparts]; rfl⟩
  rw [hassem]
  rw [← hp0len]
  exact List.take_left _ _

/-- Evaluation of the C5 vendor-prefix theorem at the apple vendor. -/
theorem vendor_oui_c5_witness :
    VENDOR_OUIS.lookup "apple" = some ["f0:18:98", "3c:15:c2", "a4:5e:60"] ∧
    ∃ p, p ∈ ["f0:18:98", "3c:15:c2", "a4:5e:60"] ∧ ∃ parts,
      random_mac_parts (some "apple") none 0 (fun _ => 0) = some parts ∧
      parts.take 3 = strSplitColon p ∧
      random_mac (some "apple") none 0 (fun _ => 0) = some (renderMac parts) :=
  ⟨by decide, vendor_oui_c5 "apple" ["f0:18:98", "3c:15:c2", "a4:5e:60"] none 0
    (fun _ => 0) (by decide)⟩

/-- Claim C6: under the fully random policy the first octet of the generated
MAC always has the locally administered bit set and the unicast bit clear:
its value o satisfies o AND 3 = 2. -/
theorem random_local_admin_c6 (pick : Nat) (rnd : Nat → Nat) :
    ∃ o, o &&& 3 = 2 ∧ o < 256 ∧
      random_mac_parts none none pick rnd =
        some (toHex2 o :: [toHex2 (rnd 1 % 256), toHex2 (rnd 2 % 256),
          toHex2 (rnd 3 % 256), toHex2 (rnd 4 % 256), toHex2 (rnd 5 % 256)]) ∧
      parseHexNat (toHex2 o) = some o := by
  obtain ⟨hbit, hlt⟩ := localAdmin_bits (rnd 0 % 256) (Nat.mod_lt _ (by norm_num))
  refine ⟨((rnd 0 % 256) &&& 252) ||| 2, hbit, hlt, ?_, parseHex_toHex2 _ hlt⟩
  rw [random_mac_parts]
  simp [strTruthy, assembleMac]

theorem padTo3_len3 (rnd : Nat → Nat) (k : Nat) (base : List String)
    (h3 : base.length ≤ 3) : (padTo3 rnd 3 base k).length = 3 := by
  rcases base with _ | ⟨a, _ | ⟨b, _ | ⟨c, rest⟩⟩⟩
  · simp [padTo3]
  · simp [padTo3]
  · simp [padTo3]
  · have hr : rest = [] := by
      rw [List.length_cons, List.length_cons, List.length_cons] at h3
      exact List.eq_nil_of_length_eq_zero (by omega)
    subst hr
    rw [padTo3_stop rnd 3 k _ (by simp)]
    simp

theorem renderMac_canonical (parts : List String) (hlen : parts.length = 6)
    (hall : parts.all isHex2 = true) : isCanonicalMac (renderMac parts) = true := by
  have hne : parts ≠ [] := by
    intro e
    rw [e] at hlen
    simp at hlen
  have h := canon_join parts hne (fun p hp => List.all_eq_true.mp hall p hp)
  rw [hlen] at h
  exact h

/-- Claim C7 counterexample: the claim that every policy yields a canonical
lowercase six-group MAC string fails for the caller-supplied prefix policy:
the prefix ZZ is embedded verbatim and the produced string is not canonical. -/
theorem canonical_c7_cex :
    random_mac none (some "ZZ") 0 (fun _ => 0) = some "ZZ:00:00:00:00:00" ∧
    isCanonicalMac "ZZ:00:00:00:00:00" = false :=
  ⟨by decide, by decide⟩

/-- Claim C7 amended: the generated MAC string is a canonical lowercase
colon-separated six-octet string under the vendor policy and the fully
random policy; under a caller-supplied prefix policy it is canonical
provided the prefix itself consists of at most three canonical lowercase
two-hex-digit groups (the prefix is embedded verbatim, unvalidated). -/
theorem canonical_c7_amended (vendor pfx : Option String) (pick : Nat) (rnd : Nat → Nat)
    (hp : strTruthy vendor = false → ∀ p, pfx = some p → ¬p.isEmpty →
      (strSplitColon p).length ≤ 3 ∧ (strSplitColon p).all isHex2 = true) :
    ∀ s, random_mac vendor pfx pick rnd = some s → isCanonicalMac s = true := by
  intro s hs
  rw [random_mac] at hs
  by_cases ht : strTruthy vendor = true
  · rw [random_mac_parts, if_pos ht] at hs
    cases hlk : VENDOR_OUIS.lookup (vendor.getD "") with
    | none => rw [hlk] at hs; simp at hs
    | some ps =>
      rw [hlk] at hs
      simp only [Option.map_some'] at hs
      obtain ⟨pr, hpr, hsnd⟩ := List.mem_map.mp (lookup_mem_snd VENDOR_OUIS _ ps hlk)
      obtain ⟨hne, hwf⟩ := vendor_ouis_wf pr hpr
      rw [hsnd] at hne hwf
      have hp0mem : ps.getD (pick % ps.length) "" ∈ ps := getD_mod_mem ps hne pick
      obtain ⟨hp0ne, hp0len, hp0all⟩ := hwf _ hp0mem
      obtain ⟨hlen6, hall6⟩ := assembleMac_hex (some (ps.getD (pick % ps.length) "")) rnd
        (by
          intro p heq _
          injection heq with e
          rw [← e]
          exact ⟨le_of_eq hp0len, hp0all⟩)
      have hseq := Option.some.inj hs
      subst hseq
      exact renderMac_canonical _ hlen6 hall6
  · have hf : strTruthy vendor = false := by
      cases hb : strTruthy vendor with
      | false => rfl
      | true => exact absurd hb ht
    rw [random_mac_parts, if_neg ht] at hs
    simp only [Option.map_some'] at hs
    obtain ⟨hlen6, hall6⟩ := assembleMac_hex pfx rnd (fun p heq hne => hp hf p heq hne)
    have hseq := Option.some.inj hs
    subst hseq
    exact renderMac_canonical _ hlen6 hall6

/-- Evaluation of the amended C7 theorem under the apple vendor policy. -/
theorem canonical_c7_amended_witness :
    (strTruthy (some "apple") = false → ∀ p, (none : Option String) = some p →
      ¬p.isEmpty → (strSplitColon p).length ≤ 3 ∧ (strSplitColon p).all isHex2 = true) ∧
    random_mac (some "apple") none 0 (fun _ => 0) = some "f0:18:98:00:00:00" ∧
    isCanonicalMac "f0:18:98:00:00:00" = true :=
  ⟨fun _ p heq => absurd heq (by simp), by decide,
    canonical_c7_amended (some "apple") none 0 (fun _ => 0)
      (fun _ p heq => absurd heq (by simp)) "f0:18:98:00:00:00" (by decide)⟩

/-- Claim C8 counterexample: a custom prefix that does not parse into hex
octets is not rejected: generation succeeds, embedding the invalid groups
verbatim (and silently truncating the fourth group), and the result is not
even a canonical MAC string. -/
theorem invalid_oui_c8_cex :
    random_mac none (some "zz:vv:qq:rr") 0 (fun _ => 0) = some "zz:vv:qq:00:00:00" ∧
    isCanonicalMac "zz:vv:qq:00:00:00" = false :=
  ⟨by decide, by decide⟩

/-- Claim C8 amended: a nonempty caller-supplied prefix is never rejected:
generation always succeeds and the first (up to three) colon groups of the
prefix are embedded verbatim at the front of the produced octet groups,
with no validation. -/
theorem invalid_oui_c8_amended (p : String) (pick : Nat) (rnd : Nat → Nat)
    (hne : ¬p.isEmpty) :
    ∃ parts rest, random_mac_parts none (some p) pick rnd = some parts ∧
      parts = (strSplitColon p).take 3 ++ rest := by
  have hie : p.isEmpty = false := isEmpty_false_of_not p hne
  have ht : strTruthy (some p) = true := by
    show (!p.isEmpty) = true
    rw [hie]
    rfl
  rw [random_mac_parts, if_neg (by simp [strTruthy])]
  rw [assembleMac, if_pos ht, show (some p).getD "" = p from rfl]
  by_cases h3 : (strSplitColon p).length < 3
  · obtain ⟨tail, htail⟩ := padTo3_extends rnd 3 (strSplitColon p) 0
    have hplen : (padTo3 rnd 3 (strSplitColon p) 0).length = 3 :=
      padTo3_len3 rnd 0 _ (le_of_lt h3)
    refine ⟨_, tail ++ [toHex2 (rnd 3 % 256), toHex2 (rnd 4 % 256), toHex2 (rnd 5 % 256)],
      rfl, ?_⟩
    rw [List.take_of_length_le (le_of_eq hplen), htail,
      List.take_of_length_le (le_of_lt h3), List.append_assoc]
  · rw [padTo3_stop rnd 3 0 _ h3]
    exact ⟨_, [toHex2 (rnd 3 % 256), toHex2 (rnd 4 % 256), toHex2 (rnd 5 % 256)], rfl, rfl⟩

/-- Evaluation of the amended C8 theorem on a concrete invalid prefix. -/
theorem invalid_oui_c8_amended_witness :
    ¬("zz:vv:qq:rr".isEmpty = true) ∧
    ∃ parts rest, random_mac_parts none (some "zz:vv:qq:rr") 0 (fun _ => 0) = some parts ∧
      parts = (strSplitColon "zz:vv:qq:rr").take 3 ++ rest :=
  ⟨by decide, invalid_oui_c8_amended "zz:vv:qq:rr" 0 (fun _ => 0) (by decide)⟩
